import Mathlib

/-!
Verification of the release-tracker ingestion-and-aggregation pipeline.

The TypeScript sources are shallowly embedded here:
* timestamps are modelled at day granularity as `Nat` day numbers counted
  from 1970-01-01 (every calendar field computed by the code depends only
  on the civil date of the timestamp, interpreted in UTC);
* the calendar accessors of the `Date` / `date-fns` runtime are embedded
  via the standard proleptic-Gregorian civil conversions;
* JS `Record` objects keyed by strings are embedded by their observable
  reads: the final count stored under a key equals the number of loop
  iterations that hit that key, and `Object.keys`/`Object.values`
  enumerate keys in first-insertion order;
* `Array.prototype.sort(cmp)` (stable as of ES2019) is embedded as
  insertion sort by the corresponding `≤` relation;
* machine numbers are embedded as `Nat` with exact arithmetic.
-/

namespace ReleaseTracker

/-! ### String helpers -/

/-- JS `s.padStart(2, "0")`: prepend zeros until the length is at least 2. -/
def pad2 (s : String) : String :=
  if s.length < 2 then String.mk (List.replicate (2 - s.length) '0') ++ s else s

/-! ### Civil calendar (model of the `Date` / `date-fns` calendar accessors)

`civilFromDays` and `daysFromCivil` are the standard proleptic-Gregorian
conversions between a day number (days since 1970-01-01) and a civil date
`(year, month, day)`, restricted to nonnegative day numbers (the program
only ever handles post-1970 release timestamps). -/

/-- Civil date `(year, month 1..12, day 1..31)` of a day number. -/
def civilFromDays (z : Nat) : Nat × Nat × Nat :=
  let z2 := z + 719468
  let era := z2 / 146097
  let doe := z2 % 146097
  let yoe := (doe - doe / 1460 + doe / 36524 - doe / 146096) / 365
  let doy := doe - (365 * yoe + yoe / 4 - yoe / 100)
  let mp := (5 * doy + 2) / 153
  let d := doy - (153 * mp + 2) / 5 + 1
  let m := if mp < 10 then mp + 3 else mp - 9
  (yoe + era * 400 + (if m ≤ 2 then 1 else 0), m, d)

/-- `date-fns` `getYear` on a UTC timestamp. -/
def yearOf (z : Nat) : Nat := (civilFromDays z).1

/-- 1-based month of a day number (so `date-fns` 0-based `getMonth` is
`monthOf z - 1`). -/
def monthOf (z : Nat) : Nat := (civilFromDays z).2.1

/-- Day number of a civil date (valid for years ≥ 1970). -/
def daysFromCivil (y m d : Nat) : Nat :=
  let y2 := if m ≤ 2 then y - 1 else y
  let era := y2 / 400
  let yoe := y2 % 400
  let mp := (m + 9) % 12
  let doy := (153 * mp + 2) / 5 + d - 1
  let doe := yoe * 365 + yoe / 4 - yoe / 100 + doy
  era * 146097 + doe - 719468

/-- `date-fns` `getDay`: day of week with 0 = Sunday (1970-01-01 was a
Thursday, day-of-week 4). -/
def getDayD (z : Nat) : Nat := (z + 4) % 7

/-- The fixed weekday-name table of `release-analyze.ts` `getWeekday`. -/
def WEEKDAY_NAMES : List String :=
  ["Sunday", "Monday", "Tuesday", "Wednesday", "Thursday", "Friday", "Saturday"]

/-- `release-analyze.ts` `getWeekday`: `days[getDay(parseISO(s))]`. -/
def getWeekday (z : Nat) : String := WEEKDAY_NAMES.getD (getDayD z) ""

/-! ### `date-fns` week numbering

`date-fns` `getWeek(date, {weekStartsOn, firstWeekContainsDate})` computes
`(startOfWeek(date) - startOfWeek(Jan fwcd of the week-year)) / week + 1`.
At day granularity the difference is an exact multiple of 7, so the
`Math.round` of the source is exact division.  The defaults used by the
code are `weekStartsOn = 0` (Sunday) and `firstWeekContainsDate = 1`. -/

/-- `date-fns` `startOfWeek` at day granularity: step back to the previous
(or current) day whose day-of-week is `ws`. -/
def startOfWeekD (ws z : Nat) : Nat := z - (7 + getDayD z - ws) % 7

/-- `date-fns` `getWeekYear`: the year owning the week containing `z`. -/
def getWeekYearD (ws fwcd z : Nat) : Nat :=
  let y := yearOf z
  let fny := startOfWeekD ws (daysFromCivil (y + 1) 1 fwcd)
  let fty := startOfWeekD ws (daysFromCivil y 1 fwcd)
  if fny ≤ z then y + 1 else if fty ≤ z then y else y - 1

/-- `date-fns` `getWeek` with options `(weekStartsOn, firstWeekContainsDate)`. -/
def getWeekD (ws fwcd z : Nat) : Nat :=
  (startOfWeekD ws z - startOfWeekD ws (daysFromCivil (getWeekYearD ws fwcd z) 1 fwcd)) / 7 + 1

/-- The `published_week` field written by `saveRawCSV`: `getWeek(published)`
with the `date-fns` default options (weeks start on Sunday, week 1 is the
week containing January 1). -/
def publishedWeekField (z : Nat) : Nat := getWeekD 0 1 z

/-- Modelled from the spec: the ISO-8601 week-of-year number (weeks start on
Monday, week 1 is the week containing January 4, equivalently the first
Thursday of the year); this is `getWeek` with `weekStartsOn = 1`,
`firstWeekContainsDate = 4`. -/
def isoWeekNumber (z : Nat) : Nat := getWeekD 1 4 z

/-- The `published_month` field written by `saveRawCSV`:
`getMonth(published) + 1`, a number (the `date-fns` `getMonth` is 0-based). -/
def publishedMonthField (z : Nat) : Nat := (monthOf z - 1) + 1

/-- The CSV cell text the `csv-writer` emits for `published_month`: the plain
decimal rendering of the number. -/
def publishedMonthCell (z : Nat) : String := toString (publishedMonthField z)

/-- Modelled from the spec (for comparison with `publishedWeekField`): the week
year of the Sunday-start convention is the calendar year containing the week's
Saturday (its last day). -/
def sundayWeekYear (z : Nat) : Nat := yearOf (startOfWeekD 0 z + 6)

/-- Modelled from the spec (for comparison with `publishedWeekField`): week
number under the weeks-start-Sunday convention in which week 1 is the week
containing January 1 — one more than the number of whole weeks between the
week start of January 1 of the week year and the date itself. -/
def sundayWeekNumber (z : Nat) : Nat :=
  (z - startOfWeekD 0 (daysFromCivil (sundayWeekYear z) 1 1)) / 7 + 1

/-! ### Fetcher (`fetchAllReleases` of `release-analyze.ts`)

The upstream endpoint is modelled as a function `resp` from page number to
either an error (a thrown request error) or a list of records (one page).
The `while (true)` loop requests pages `1, 2, …`, stops on the first error
or empty page, and accumulates the pages in arrival order.  The loop has no
bound of its own, so the embedding carries a fuel parameter bounding the
number of requests; every theorem below holds for all sufficiently large
fuel.  The second component of the result counts the requests issued. -/

def fetchGo (resp : Nat → Except Unit (List α)) : Nat → Nat → List α → List α × Nat
  | 0, _, acc => (acc, 0)
  | fuel + 1, page, acc =>
    match resp page with
    | .error _ => (acc, 1)
    | .ok data =>
      if data.isEmpty then (acc, 1)
      else
        let r := fetchGo resp fuel (page + 1) (acc ++ data)
        (r.1, r.2 + 1)

/-- `fetchAllReleases`: page through `resp` starting at page 1; returns the
accumulated records and the number of requests issued. -/
def fetchAllReleases (resp : Nat → Except Unit (List α)) (fuel : Nat) : List α × Nat :=
  fetchGo resp fuel 1 []

/-! ### The canonical record (the parsed `release-raw.csv` row)

All CSV cells are strings, as in the `RawRelease` interface of the
dashboard sources. -/

structure RawRelease where
  repo : String := ""
  release_id : String := ""
  tag_name : String := ""
  release_name : String := ""
  author : String := ""
  created_at : String := ""
  published_at : String := ""
  is_draft : String := ""
  is_prerelease : String := ""
  body : String := ""
  assets_count : String := ""
  assets_names : String := ""
  html_url : String := ""
  published_weekday : String := ""
  published_date : String := ""
  published_year : String := ""
  published_month : String := ""
  published_week : String := ""
deriving Repr, DecidableEq

/-- The `WEEKDAYS` constant of `dashboardService` (also the `order` array of
its `getWeekdayStats`). -/
def WEEKDAYS : List String := ["Monday", "Tuesday", "Wednesday", "Thursday", "Friday"]

/-- JS `array.indexOf(s)`: first index of `s`, `-1` when absent. -/
def jsIndexOf (l : List String) (s : String) : Int :=
  if s ∈ l then (l.indexOf s : Int) else -1

/-- First-occurrence deduplication: the enumeration order of the keys of a JS
`Record` built by insertion (`Object.keys` / `Object.values` order). -/
def firstDedupAux : List String → List String → List String
  | [], _ => []
  | a :: l, seen => if a ∈ seen then firstDedupAux l seen else a :: firstDedupAux l (a :: seen)

def firstDedup (l : List String) : List String := firstDedupAux l []

namespace Service

/-! ### `dashboardService` (the stats service behind `GET /stats`)

Each aggregation of the source builds a JS `Record` keyed by strings with a
running count per key.  The embedding reads the finished `Record` directly:
the count stored under a key equals the number of loop iterations that hit
that key (`countP` of the loop's guard), and `Object.values` enumerates the
entries in first-insertion order (`firstDedup` of the keys hit, paired with
their final counts).  `array.sort(cmp)` is embedded as a stable insertion
sort by the `≤` relation the comparator encodes, and `localeCompare` as the
string order. -/

/-- `loadRawReleases`: the parsed rows filtered, once at table load, to those
whose `published_weekday` is among `WEEKDAYS` (Monday..Friday). -/
def loadRawReleases (rows : List RawRelease) : List RawRelease :=
  rows.filter (fun row => WEEKDAYS.contains row.published_weekday)

/-- Keys of the `byYear` record of `getYearStats`: the distinct non-falsy
`published_year` values in first-occurrence order. -/
def yearKeys (data : List RawRelease) : List String :=
  firstDedup ((data.map (·.published_year)).filter (fun s => !s.isEmpty))

/-- Final count stored under key `y` by the `getYearStats` loop. -/
def yearCount (data : List RawRelease) (y : String) : Nat :=
  data.countP (fun d => !d.published_year.isEmpty && d.published_year == y)

/-- `getYearStats`: per-year counts sorted ascending by
`a.year.localeCompare(b.year)`. -/
def getYearStats (data : List RawRelease) : List (String × Nat) :=
  List.insertionSort (fun a b => a.1 ≤ b.1)
    ((yearKeys data).map (fun y => (y, yearCount data y)))

/-- Final count stored under key `m` by the `getMonthStats` loop: rows of the
given year whose zero-padded `published_month` is `m`. -/
def monthCount (data : List RawRelease) (year m : String) : Nat :=
  data.countP (fun d => d.published_year == year && pad2 d.published_month == m)

/-- `getMonthStats`: `Array.from({length: 12}, …)` reads the 12 keys
`"01".."12"` out of `byMonth`, defaulting absent keys to count 0
(`byMonth[m] || { month: m, count: 0 }`). -/
def getMonthStats (data : List RawRelease) (year : String) : List (String × Nat) :=
  (List.range 12).map (fun i =>
    (pad2 (toString (i + 1)), monthCount data year (pad2 (toString (i + 1)))))

/-- Keys of the `byDay` record of `getWeekdayStats`: distinct non-falsy
`published_weekday` values in first-occurrence order. -/
def weekdayKeys (data : List RawRelease) : List String :=
  firstDedup ((data.map (·.published_weekday)).filter (fun s => !s.isEmpty))

/-- Final count stored under key `day` by the `getWeekdayStats` loop. -/
def weekdayCount (data : List RawRelease) (day : String) : Nat :=
  data.countP (fun d => !d.published_weekday.isEmpty && d.published_weekday == day)

/-- `getWeekdayStats` of `dashboardService`: the entries present in `byDay`
(no zero-fill), sorted by `order.indexOf(a.weekday) - order.indexOf(b.weekday)`
with `order = WEEKDAYS`. -/
def getWeekdayStats (data : List RawRelease) : List (String × Nat) :=
  List.insertionSort (fun a b => jsIndexOf WEEKDAYS a.1 ≤ jsIndexOf WEEKDAYS b.1)
    ((weekdayKeys data).map (fun day => (day, weekdayCount data day)))

/-- Guard of the `draft += 1` branch of `getReleaseTypeStats`. -/
def isDraftRow (d : RawRelease) : Bool := d.is_draft == "true"

/-- Guard of the `prerelease += 1` branch (the `else if`). -/
def isPrereleaseRow (d : RawRelease) : Bool :=
  !(d.is_draft == "true") && d.is_prerelease == "true"

/-- Guard of the `release += 1` branch (the final `else`). -/
def isPlainReleaseRow (d : RawRelease) : Bool :=
  !(d.is_draft == "true") && !(d.is_prerelease == "true")

/-- `getReleaseTypeStats`: the three counters of the if/else-if/else chain,
returned as the fixed three-entry array. -/
def getReleaseTypeStats (data : List RawRelease) : List (String × Nat) :=
  [("Draft", data.countP isDraftRow),
   ("Prerelease", data.countP isPrereleaseRow),
   ("Release", data.countP isPlainReleaseRow)]

/-- Keys of the `byMonth` record of `getAllTimeMonthTop3`: zero-padded months
of rows with a non-falsy `published_month`, in first-occurrence order. -/
def topMonthKeys (data : List RawRelease) : List String :=
  firstDedup (((data.map (·.published_month)).filter (fun s => !s.isEmpty)).map pad2)

/-- Final count stored under key `m` by the `getAllTimeMonthTop3` loop. -/
def topMonthCount (data : List RawRelease) (m : String) : Nat :=
  data.countP (fun d => !d.published_month.isEmpty && pad2 d.published_month == m)

/-- `getAllTimeMonthTop3`: entries sorted by `b.count - a.count` (descending
by count; the stable sort leaves ties in key-insertion order), first 3. -/
def getAllTimeMonthTop3 (data : List RawRelease) : List (String × Nat) :=
  (List.insertionSort (fun a b : String × Nat => b.2 ≤ a.2)
    ((topMonthKeys data).map (fun m => (m, topMonthCount data m)))).take 3

/-- `Math.round(num / den)` for nonnegative exact rationals: round half up. -/
def jsRound (num den : Nat) : Nat := (2 * num + den) / (2 * den)

/-- `.sort((a, b) => a - b)` on the timestamp array. -/
def sortAsc (l : List Nat) : List Nat := List.insertionSort (· ≤ ·) l

/-- The `sum` accumulated by the gap loop:
`for (i = 1; …) sum += dates[i] - dates[i-1]`. -/
def gapSum : List Nat → Nat
  | a :: b :: t => (b - a) + gapSum (b :: t)
  | _ => 0

/-- Core of `getAverageReleaseInterval` on the parsed timestamps (ms):
sort ascending, sentinel 0 below 2 entries, else
`Math.round((sum / (n - 1)) / 86400000)` — computed exactly. -/
def averageInterval (times : List Nat) : Nat :=
  let s := sortAsc times
  if s.length < 2 then 0
  else jsRound (gapSum s) ((s.length - 1) * 86400000)

/-- `getAverageReleaseInterval`: timestamps are the `published_at` strings,
falsy (empty) ones dropped, parsed by `new Date(str).getTime()` (modelled by
the abstract `getTime`). -/
def getAverageReleaseInterval (getTime : String → Nat) (data : List RawRelease) : Nat :=
  averageInterval (((data.map (·.published_at)).filter (fun s => !s.isEmpty)).map getTime)

/-- `allYears` of `getDashboardStats`:
`Array.from(new Set(years)).filter(Boolean).sort(localeCompare)`. -/
def allYears (data : List RawRelease) : List String :=
  List.insertionSort (· ≤ ·)
    ((firstDedup (data.map (·.published_year))).filter (fun s => !s.isEmpty))

/-- The JSON document returned by `getDashboardStats`. -/
structure DashboardStats where
  allYears : List String
  yearStats : List (String × Nat)
  monthStats : List (String × List (String × Nat))
  weekdayStats : List (String × Nat)
  releaseTypeStats : List (String × Nat)
  top3Months : List (String × Nat)
  avgReleaseInterval : Nat
deriving Repr, DecidableEq

/-- `getDashboardStats`: loads the table (weekend rows dropped once, at load)
and computes every view from that same filtered collection. -/
def getDashboardStats (getTime : String → Nat) (rows : List RawRelease) : DashboardStats :=
  let data := loadRawReleases rows
  { allYears := allYears data
    yearStats := getYearStats data
    monthStats := (allYears data).map (fun y => (y, getMonthStats data y))
    weekdayStats := getWeekdayStats data
    releaseTypeStats := getReleaseTypeStats data
    top3Months := getAllTimeMonthTop3 data
    avgReleaseInterval := getAverageReleaseInterval getTime data }

end Service

namespace Cards

/-! ### The `part_000` dashboard variant (card layout) -/

/-- `excludeWeekend` of the `part_000` variant. -/
def excludeWeekend (data : List RawRelease) : List RawRelease :=
  data.filter (fun d =>
    !(d.published_weekday == "Saturday") && !(d.published_weekday == "Sunday"))

/-- `getWeekdayStats` of the `part_000` variant: weekend rows excluded, then
`order.map(day => byDay[day] || { weekday: day, count: 0 })` — one entry per
Monday..Friday, zero-filled. -/
def getWeekdayStats (data : List RawRelease) : List (String × Nat) :=
  let filtered := excludeWeekend data
  WEEKDAYS.map (fun day => (day, Service.weekdayCount filtered day))

end Cards

namespace Analyze

/-! ### The stats serializer of `release-analyze.ts` (`saveStatsCSV`) -/

/-- One flattened stats row `{type, period, repo, count}`. -/
structure StatRecord where
  type : String
  period : String
  repo : String
  count : Nat
deriving Repr, DecidableEq

/-- The `records.sort` comparator of `saveStatsCSV`: by `repo`, then `type`,
then `period`, each compared by `localeCompare` (modelled as the string
order). -/
def statLe (a b : StatRecord) : Prop :=
  a.repo < b.repo ∨
    (a.repo = b.repo ∧ (a.type < b.type ∨ (a.type = b.type ∧ a.period ≤ b.period)))

instance : DecidableRel statLe := fun a b => by
  unfold statLe
  exact inferInstance

/-- The sort key the comparator orders by. -/
def statKey (r : StatRecord) : String × String × String := (r.repo, r.type, r.period)

/-- The global sort of `saveStatsCSV` over the flattened rows. -/
def sortStats (l : List StatRecord) : List StatRecord := List.insertionSort statLe l

end Analyze

/-! ### Concrete sample data used by the witnesses -/

/-- A canonical row as ingestion writes it: a weekday release of January 2023
(note the unpadded month cell, as produced by `saveRawCSV`). -/
def sample2023Jan : RawRelease :=
  { published_year := "2023", published_month := "1", published_weekday := "Monday",
    published_at := "2023-01-02T00:00:00Z", is_draft := "false", is_prerelease := "false" }

/-- A single Monday row. -/
def mondayRow : RawRelease := { published_weekday := "Monday" }

/-- A paginated endpoint with pages of 100, 100 and 37 records and an empty
fourth page. -/
def sampleResp : Nat → Except Unit (List Nat) := fun page =>
  if page = 1 then .ok (List.replicate 100 0)
  else if page = 2 then .ok (List.replicate 100 1)
  else if page = 3 then .ok (List.replicate 37 2)
  else .ok []

/-- A paginated endpoint whose third page request fails. -/
def sampleRespFail : Nat → Except Unit (List Nat) := fun page =>
  if page = 1 then .ok [10]
  else if page = 2 then .ok [20, 21]
  else .error ()

/-- Two concrete stats rows with distinct sort keys. -/
def statRow1 : Analyze.StatRecord :=
  { type := "Yearly", period := "2023", repo := "daangn/stackflow", count := 4 }

def statRow2 : Analyze.StatRecord :=
  { type := "Daily", period := "2023-01-02", repo := "daangn/seed-design", count := 1 }

/-! ### Infrastructure lemmas -/

theorem mem_firstDedupAux (x : String) (l : List String) :
    ∀ seen, x ∈ firstDedupAux l seen ↔ (x ∈ l ∧ x ∉ seen) := by
  induction l with
  | nil => intro seen; simp [firstDedupAux]
  | cons a l ih =>
    intro seen
    by_cases h : a ∈ seen
    · rw [firstDedupAux, if_pos h, ih seen]
      constructor
      · rintro ⟨hx, hs⟩; exact ⟨List.mem_cons_of_mem _ hx, hs⟩
      · rintro ⟨hx, hs⟩
        rcases List.mem_cons.mp hx with rfl | hx
        · exact (hs h).elim
        · exact ⟨hx, hs⟩
    · rw [firstDedupAux, if_neg h]
      by_cases hxa : x = a
      · subst hxa
        simp [h]
      · rw [List.mem_cons, ih (a :: seen)]
        simp [hxa, List.mem_cons]

theorem nodup_firstDedupAux (l : List String) :
    ∀ seen, (firstDedupAux l seen).Nodup := by
  induction l with
  | nil => intro _; simp [firstDedupAux]
  | cons a l ih =>
    intro seen
    by_cases h : a ∈ seen
    · rw [firstDedupAux, if_pos h]; exact ih seen
    · rw [firstDedupAux, if_neg h]
      refine List.nodup_cons.mpr ⟨?_, ih _⟩
      intro hmem
      exact ((mem_firstDedupAux a l _).mp hmem).2 (List.mem_cons_self a seen)

theorem mem_firstDedup {x : String} {l : List String} : x ∈ firstDedup l ↔ x ∈ l := by
  rw [firstDedup, mem_firstDedupAux]
  simp

theorem nodup_firstDedup (l : List String) : (firstDedup l).Nodup :=
  nodup_firstDedupAux l []

/-- Two `R`-sorted lists that are permutations of one another are equal,
provided `R` is antisymmetric on the elements involved. -/
theorem eq_of_perm_of_pairwise {α : Type} (R : α → α → Prop) :
    ∀ {l₁ l₂ : List α}, l₁.Perm l₂ →
      (∀ a ∈ l₁, ∀ b ∈ l₁, R a b → R b a → a = b) →
      l₁.Pairwise R → l₂.Pairwise R → l₁ = l₂ := by
  intro l₁
  induction l₁ with
  | nil =>
    intro l₂ hp _ _ _
    exact (hp.symm.eq_nil).symm ▸ rfl
  | cons a t ih =>
    intro l₂ hp hanti hs₁ hs₂
    cases l₂ with
    | nil => exact absurd hp.eq_nil (by simp)
    | cons b t₂ =>
      have hab : a = b := by
        by_contra hne
        have ha2 : a ∈ t₂ := by
          have : a ∈ b :: t₂ := hp.subset (List.mem_cons_self a t)
          rcases List.mem_cons.mp this with h | h
          · exact (hne h).elim
          · exact h
        have hb1 : b ∈ t := by
          have : b ∈ a :: t := hp.symm.subset (List.mem_cons_self b t₂)
          rcases List.mem_cons.mp this with h | h
          · exact (hne h.symm).elim
          · exact h
        have hRab : R a b := ((List.pairwise_cons.mp hs₁).1) b hb1
        have hRba : R b a := ((List.pairwise_cons.mp hs₂).1) a ha2
        exact hne (hanti a (List.mem_cons_self a t) b (List.mem_cons_of_mem a hb1) hRab hRba)
      subst hab
      have hp' : t.Perm t₂ := hp.cons_inv
      have ht : t = t₂ := by
        refine ih hp' ?_ (List.pairwise_cons.mp hs₁).2 (List.pairwise_cons.mp hs₂).2
        intro x hx y hy
        exact hanti x (List.mem_cons_of_mem a hx) y (List.mem_cons_of_mem a hy)
      rw [ht]

theorem sum_map_add {α : Type} (f g : α → Nat) (l : List α) :
    (l.map (fun x => f x + g x)).sum = (l.map f).sum + (l.map g).sum := by
  induction l with
  | nil => simp
  | cons a l ih => simp [ih]; omega

theorem sum_indicator (keys : List String) (hnd : keys.Nodup) (x : String) (hx : x ∈ keys) :
    (keys.map (fun m => if x = m then 1 else 0)).sum = 1 := by
  induction keys with
  | nil => cases hx
  | cons k ks ih =>
    rcases List.mem_cons.mp hx with rfl | hmem
    · have hnotin : x ∉ ks := (List.nodup_cons.mp hnd).1
      have hz : (ks.map (fun m => if x = m then 1 else 0)).sum = 0 := by
        rw [List.sum_eq_zero]
        intro n hn
        rcases List.mem_map.mp hn with ⟨m, hm, rfl⟩
        have : x ≠ m := fun h => hnotin (h ▸ hm)
        simp [this]
      simp [hz]
    · have hxk : x ≠ k := fun hh => (List.nodup_cons.mp hnd).1 (hh ▸ hmem)
      simp [hxk, ih (List.nodup_cons.mp hnd).2 hmem]

/-- Summing per-key counts over a duplicate-free key list that covers every
selected element partitions the total count. -/
theorem countP_partition {α : Type} (keys : List String) (hnd : keys.Nodup)
    (p : α → Bool) (f : α → String) (data : List α)
    (h : ∀ r ∈ data, p r = true → f r ∈ keys) :
    (keys.map (fun m => data.countP (fun r => p r && (f r == m)))).sum = data.countP p := by
  induction data with
  | nil => simp
  | cons a l ih =>
    have hl : ∀ r ∈ l, p r = true → f r ∈ keys := fun r hr => h r (List.mem_cons_of_mem a hr)
    simp only [List.countP_cons]
    have step :
        (keys.map (fun m => l.countP (fun r => p r && (f r == m)) +
          if (p a && (f a == m)) = true then 1 else 0)).sum =
        (keys.map (fun m => l.countP (fun r => p r && (f r == m)))).sum +
          (keys.map (fun m => if (p a && (f a == m)) = true then 1 else 0)).sum :=
      sum_map_add _ _ keys
    rw [step, ih hl]
    by_cases hpa : p a = true
    · have hfa : f a ∈ keys := h a (List.mem_cons_self a l) hpa
      have hone : (keys.map (fun m => if (p a && (f a == m)) = true then 1 else 0)).sum = 1 := by
        have heq : (fun m => if (p a && (f a == m)) = true then 1 else 0) =
            (fun m : String => if f a = m then 1 else 0) := by
          funext m
          by_cases hm : f a = m <;> simp [hpa, hm]
        rw [heq]
        exact sum_indicator keys hnd (f a) hfa
      rw [hone]
      simp [hpa]
    · have hpa' : p a = false := by
        cases hp : p a
        · rfl
        · exact (hpa hp).elim
      have : (keys.map (fun m => if (p a && (f a == m)) = true then 1 else 0)).sum = 0 := by
        rw [List.sum_eq_zero]
        intro n hn
        rcases List.mem_map.mp hn with ⟨m, _, rfl⟩
        simp [hpa']
      simp [this, hpa']

/-- Pointwise-equal predicates count alike. -/
theorem countP_congr_mem {α : Type} {p q : α → Bool} :
    ∀ {l : List α}, (∀ a ∈ l, p a = q a) → l.countP p = l.countP q := by
  intro l
  induction l with
  | nil => intro _; rfl
  | cons a t ih =>
    intro h
    simp only [List.countP_cons, h a (List.mem_cons_self a t),
      ih (fun x hx => h x (List.mem_cons_of_mem a hx))]

/-- In a `≤`-sorted list the head is below the last element. -/
theorem headD_le_getLastD : ∀ {l : List Nat} {b : Nat},
    (b :: l).Pairwise (· ≤ ·) → b ≤ (b :: l).getLastD 0 := by
  intro l
  induction l with
  | nil => intro b _; simp
  | cons c t ih =>
    intro b h
    have hbc : b ≤ c := (List.pairwise_cons.mp h).1 c (List.mem_cons_self c t)
    have := ih (List.pairwise_cons.mp h).2
    calc b ≤ c := hbc
      _ ≤ (c :: t).getLastD 0 := this
      _ = (b :: c :: t).getLastD 0 := by
        simp [List.getLastD_eq_getLast?]

/-- Telescoping: on a `≤`-sorted list the summed consecutive gaps equal
last minus first. -/
theorem gapSum_sorted : ∀ {l : List Nat}, l.Pairwise (· ≤ ·) →
    Service.gapSum l = l.getLastD 0 - l.headD 0 := by
  intro l
  induction l with
  | nil => intro _; simp [Service.gapSum]
  | cons a t ih =>
    intro h
    cases t with
    | nil => simp [Service.gapSum]
    | cons b t₂ =>
      have hab : a ≤ b := (List.pairwise_cons.mp h).1 b (List.mem_cons_self b t₂)
      have hs₂ : (b :: t₂).Pairwise (· ≤ ·) := (List.pairwise_cons.mp h).2
      have hbl : b ≤ (b :: t₂).getLastD 0 := headD_le_getLastD hs₂
      have hrec := ih hs₂
      have hlast : (a :: b :: t₂).getLastD 0 = (b :: t₂).getLastD 0 := by
        simp [List.getLastD_eq_getLast?]
      rw [Service.gapSum, hrec, hlast]
      simp only [List.headD_cons]
      omega

/-- Three pointwise mutually exclusive and exhaustive guards partition the
length of any list into their three counts. -/
theorem countP_three_partition {α : Type} (p q r : α → Bool)
    (h : ∀ a : α, (if p a then 1 else 0) + (if q a then 1 else 0) +
      (if r a then 1 else 0) = 1) (l : List α) :
    l.countP p + l.countP q + l.countP r = l.length := by
  induction l with
  | nil => rfl
  | cons a t ih =>
    simp only [List.countP_cons, List.length_cons]
    have ha := h a
    cases hp : p a <;> cases hq : q a <;> cases hr : r a <;>
      simp only [hp, hq, hr, if_true, if_false] at ha ⊢ <;> omega

/-! ## Claim theorems -/

/-- C2: `getReleaseTypeStats` returns exactly the three buckets Draft,
Prerelease, Release in that order; the three branch guards realize the
priority order (`is_draft` true → Draft; else `is_prerelease` true →
Prerelease; else Release), every record satisfies exactly one guard, and the
three counts sum to the total number of input records. -/
theorem C2_release_type_partition (data : List RawRelease) :
    (Service.getReleaseTypeStats data).map Prod.fst = ["Draft", "Prerelease", "Release"] ∧
    ((Service.getReleaseTypeStats data).map Prod.snd).sum = data.length ∧
    (∀ d : RawRelease,
      (if Service.isDraftRow d then 1 else 0) + (if Service.isPrereleaseRow d then 1 else 0) +
        (if Service.isPlainReleaseRow d then 1 else 0) = 1) ∧
    (∀ d : RawRelease, (Service.isDraftRow d = true ↔ d.is_draft = "true")) ∧
    (∀ d : RawRelease, (Service.isPrereleaseRow d = true ↔
      (¬d.is_draft = "true" ∧ d.is_prerelease = "true"))) ∧
    (∀ d : RawRelease, (Service.isPlainReleaseRow d = true ↔
      (¬d.is_draft = "true" ∧ ¬d.is_prerelease = "true"))) := by
  have hone : ∀ d : RawRelease,
      (if Service.isDraftRow d then 1 else 0) + (if Service.isPrereleaseRow d then 1 else 0) +
        (if Service.isPlainReleaseRow d then 1 else 0) = 1 := by
    intro d
    unfold Service.isDraftRow Service.isPrereleaseRow Service.isPlainReleaseRow
    cases d.is_draft == "true" <;> cases d.is_prerelease == "true" <;> rfl
  refine ⟨rfl, ?_, hone, ?_, ?_, ?_⟩
  · have hsum := countP_three_partition Service.isDraftRow Service.isPrereleaseRow
      Service.isPlainReleaseRow hone data
    simp only [Service.getReleaseTypeStats, List.map_cons, List.map_nil, List.sum_cons,
      List.sum_nil]
    omega
  · intro d; simp [Service.isDraftRow]
  · intro d; simp [Service.isPrereleaseRow]
  · intro d; simp [Service.isPlainReleaseRow]

/-- C10: `getDashboardStats` filters weekend rows out once, at table load, so
its entire output is invariant under pre-removing the very rows that filter
drops, and each of its seven views is computed from the same loaded
(Monday..Friday) collection. -/
theorem C10_uniform_workday_filter (getTime : String → Nat) (rows : List RawRelease) :
    Service.getDashboardStats getTime rows =
      Service.getDashboardStats getTime
        (rows.filter (fun row => WEEKDAYS.contains row.published_weekday)) ∧
    Service.loadRawReleases rows =
      rows.filter (fun row => WEEKDAYS.contains row.published_weekday) ∧
    (Service.getDashboardStats getTime rows).allYears =
      Service.allYears (Service.loadRawReleases rows) ∧
    (Service.getDashboardStats getTime rows).yearStats =
      Service.getYearStats (Service.loadRawReleases rows) ∧
    (Service.getDashboardStats getTime rows).monthStats =
      (Service.allYears (Service.loadRawReleases rows)).map
        (fun y => (y, Service.getMonthStats (Service.loadRawReleases rows) y)) ∧
    (Service.getDashboardStats getTime rows).weekdayStats =
      Service.getWeekdayStats (Service.loadRawReleases rows) ∧
    (Service.getDashboardStats getTime rows).releaseTypeStats =
      Service.getReleaseTypeStats (Service.loadRawReleases rows) ∧
    (Service.getDashboardStats getTime rows).top3Months =
      Service.getAllTimeMonthTop3 (Service.loadRawReleases rows) ∧
    (Service.getDashboardStats getTime rows).avgReleaseInterval =
      Service.getAverageReleaseInterval getTime (Service.loadRawReleases rows) := by
  refine ⟨?_, rfl, rfl, rfl, rfl, rfl, rfl, rfl, rfl⟩
  simp only [Service.getDashboardStats, Service.loadRawReleases, List.filter_filter,
    Bool.and_self]

/-- C4: with pages of 100, 100 and 37 records and an empty page 4, the fetch
loop returns exactly the 237 records of the three pages concatenated in
arrival order and issues exactly 4 requests (none after the empty page),
for every sufficient fuel bound. -/
theorem C4_pagination {α : Type} (resp : Nat → Except Unit (List α)) (p1 p2 p3 : List α)
    (h1 : resp 1 = .ok p1) (h2 : resp 2 = .ok p2) (h3 : resp 3 = .ok p3)
    (h4 : resp 4 = .ok []) (l1 : p1.length = 100) (l2 : p2.length = 100)
    (l3 : p3.length = 37) (fuel : Nat) (hf : 4 ≤ fuel) :
    fetchAllReleases resp fuel = (p1 ++ p2 ++ p3, 4) ∧ (p1 ++ p2 ++ p3).length = 237 := by
  obtain ⟨k, rfl⟩ : ∃ k, fuel = k + 1 + 1 + 1 + 1 := ⟨fuel - 4, by omega⟩
  have e1 : p1.isEmpty = false := by cases p1 with | nil => simp at l1 | cons a t => rfl
  have e2 : p2.isEmpty = false := by cases p2 with | nil => simp at l2 | cons a t => rfl
  have e3 : p3.isEmpty = false := by cases p3 with | nil => simp at l3 | cons a t => rfl
  constructor
  · show fetchGo resp (k + 1 + 1 + 1 + 1) 1 [] = (p1 ++ p2 ++ p3, 4)
    simp [fetchGo, h1, h2, h3, h4, e1, e2, e3]
  · rw [List.length_append, List.length_append, l1, l2, l3]

/-- Witness for C4: the concrete endpoint `sampleResp`. -/
theorem C4_pagination_witness :
    fetchAllReleases sampleResp 10 =
      (List.replicate 100 0 ++ List.replicate 100 1 ++ List.replicate 37 2, 4) ∧
    (List.replicate 100 0 ++ List.replicate 100 1 ++ List.replicate 37 2).length = 237 :=
  C4_pagination sampleResp _ _ _ rfl rfl rfl rfl (by simp) (by simp) (by simp) 10 (by omega)

/-- The fetch loop, on a run of successful nonempty pages followed by a
failing request, returns the accumulated pages and stops at the failure. -/
theorem fetchGo_stops_on_error {α : Type} (resp : Nat → Except Unit (List α)) :
    ∀ (pages : List (List α)) (page : Nat) (acc : List α) (fuel : Nat),
      (∀ i, i < pages.length → resp (page + i) = .ok (pages.getD i [])) →
      (∀ i, i < pages.length → pages.getD i [] ≠ []) →
      resp (page + pages.length) = .error () →
      pages.length + 1 ≤ fuel →
      fetchGo resp fuel page acc = (acc ++ pages.flatten, pages.length + 1) := by
  intro pages
  induction pages with
  | nil =>
    intro page acc fuel hok hne herr hf
    obtain ⟨k, rfl⟩ : ∃ k, fuel = k + 1 := ⟨fuel - 1, by omega⟩
    simp only [List.length_nil, Nat.add_zero] at herr
    simp [fetchGo, herr]
  | cons p ps ih =>
    intro page acc fuel hok hne herr hf
    obtain ⟨k, rfl⟩ : ∃ k, fuel = k + 1 := ⟨fuel - 1, by omega⟩
    have h0 : resp page = .ok p := by
      have := hok 0 (by simp)
      simpa using this
    have hp0 : p ≠ [] := by
      have := hne 0 (by simp)
      simpa using this
    have e0 : p.isEmpty = false := by
      cases p with | nil => exact (hp0 rfl).elim | cons a t => rfl
    have hok' : ∀ i, i < ps.length → resp (page + 1 + i) = .ok (ps.getD i []) := by
      intro i hi
      have := hok (i + 1) (by simp; omega)
      rw [show page + 1 + i = page + (i + 1) by omega]
      simpa using this
    have hne' : ∀ i, i < ps.length → ps.getD i [] ≠ [] := by
      intro i hi
      have := hne (i + 1) (by simp; omega)
      simpa using this
    have herr' : resp (page + 1 + ps.length) = .error () := by
      rw [show page + 1 + ps.length = page + (p :: ps).length by simp; omega]
      exact herr
    have hrec := ih (page + 1) (acc ++ p) k hok' hne' herr' (by simp at hf; omega)
    simp [fetchGo, h0, e0, hrec, List.append_assoc]

/-- C5: when the request for the page after a run of successful nonempty
pages fails, the fetch returns exactly the records accumulated from the
successful pages, issues exactly one request per page plus the failing one
(so the failed page is never retried), and returns normally rather than
propagating the error. -/
theorem C5_failure_truncates {α : Type} (resp : Nat → Except Unit (List α))
    (pages : List (List α)) (fuel : Nat)
    (hok : ∀ i, i < pages.length → resp (i + 1) = .ok (pages.getD i []))
    (hne : ∀ i, i < pages.length → pages.getD i [] ≠ [])
    (herr : resp (pages.length + 1) = .error ())
    (hf : pages.length + 1 ≤ fuel) :
    fetchAllReleases resp fuel = (pages.flatten, pages.length + 1) := by
  have h := fetchGo_stops_on_error resp pages 1 [] fuel ?_ hne ?_ hf
  · simpa using h
  · intro i hi
    rw [show (1 : Nat) + i = i + 1 by omega]
    exact hok i hi
  · rw [show (1 : Nat) + pages.length = pages.length + 1 by omega]
    exact herr

/-- Witness for C5: the concrete endpoint `sampleRespFail`, failing at
page 3: the two successful pages are returned, after exactly 3 requests. -/
theorem C5_failure_truncates_witness :
    fetchAllReleases sampleRespFail 10 = ([10, 20, 21], 3) := by
  have h := C5_failure_truncates sampleRespFail [[10], [20, 21]] 10
    (by intro i hi; simp at hi; interval_cases i <;> rfl)
    (by intro i hi; simp at hi; interval_cases i <;> simp)
    (by rfl) (by simp)
  exact h.trans (by decide)

/-- C1: `getMonthStats` always returns exactly 12 entries keyed `"01".."12"`
in ascending order; an entry whose month matches no record carries count 0;
and whenever every matching record's zero-padded month lands among the 12
keys (as holds for every canonical record, whose month cell renders a 1..12
number), the 12 counts sum to the number of records of the requested year. -/
theorem C1_month_stats (data : List RawRelease) (year : String) :
    (Service.getMonthStats data year).length = 12 ∧
    (Service.getMonthStats data year).map Prod.fst =
      ["01", "02", "03", "04", "05", "06", "07", "08", "09", "10", "11", "12"] ∧
    List.Chain' (· < ·) ((Service.getMonthStats data year).map Prod.fst) ∧
    (∀ pr ∈ Service.getMonthStats data year,
      (∀ d ∈ data, ¬(d.published_year = year ∧ pad2 d.published_month = pr.1)) →
        pr.2 = 0) ∧
    ((∀ d ∈ data, d.published_year = year →
        pad2 d.published_month ∈
          ["01", "02", "03", "04", "05", "06", "07", "08", "09", "10", "11", "12"]) →
      ((Service.getMonthStats data year).map Prod.snd).sum =
        data.countP (fun d => d.published_year == year)) := by
  have hfst : (Service.getMonthStats data year).map Prod.fst =
      ["01", "02", "03", "04", "05", "06", "07", "08", "09", "10", "11", "12"] := by
    simp only [Service.getMonthStats, List.map_map]
    rfl
  have hchain :
      List.Chain' (· < ·) ((Service.getMonthStats data year).map Prod.fst) := by
    rw [hfst]
    simp only [List.chain'_cons, List.chain'_singleton, and_true]
    refine ⟨?_, ?_, ?_, ?_, ?_, ?_, ?_, ?_, ?_, ?_, ?_⟩ <;>
      exact String.lt_iff_toList_lt.mpr (by decide)
  refine ⟨by simp [Service.getMonthStats], hfst, hchain, ?_, ?_⟩
  · intro pr hpr hnone
    simp only [Service.getMonthStats, List.mem_map, List.mem_range] at hpr
    obtain ⟨i, _, rfl⟩ := hpr
    simp only [Service.monthCount]
    rw [List.countP_eq_zero]
    intro d hd
    have := hnone d hd
    simp only [Bool.and_eq_true, beq_iff_eq]
    rintro ⟨hy, hm⟩
    exact this ⟨hy, hm⟩
  · intro h
    have hnodup :
        (["01", "02", "03", "04", "05", "06", "07", "08", "09", "10", "11", "12"] :
          List String).Nodup := by decide
    have hpart := countP_partition
      ["01", "02", "03", "04", "05", "06", "07", "08", "09", "10", "11", "12"] hnodup
      (fun d : RawRelease => d.published_year == year)
      (fun d : RawRelease => pad2 d.published_month) data
      (fun r hr hp => h r hr (by simpa using hp))
    have hkeys : (List.range 12).map (fun i => pad2 (toString (i + 1))) =
        ["01", "02", "03", "04", "05", "06", "07", "08", "09", "10", "11", "12"] := by
      rfl
    calc ((Service.getMonthStats data year).map Prod.snd).sum
        = (((List.range 12).map (fun i => pad2 (toString (i + 1)))).map
            (fun m => data.countP
              (fun d => d.published_year == year && pad2 d.published_month == m))).sum := by
          simp only [Service.getMonthStats, List.map_map, Service.monthCount]
          rfl
      _ = data.countP (fun d => d.published_year == year) := by
          rw [hkeys]
          exact hpart

/-- Witness for C1 at a concrete one-row table. -/
theorem C1_month_stats_witness :
    ((Service.getMonthStats [sample2023Jan] "2023").map Prod.snd).sum =
      [sample2023Jan].countP (fun d => d.published_year == "2023") :=
  (C1_month_stats [sample2023Jan] "2023").2.2.2.2 (by decide)

/-- C3: the average-interval computation returns the insufficient-data
sentinel 0 whenever fewer than 2 usable timestamps exist (usable = non-falsy
`published_at`); on exactly two timestamps `d0 ≤ d1` (in either input order)
it returns `Math.round((d1 - d0) / 86400000)`; and in general it returns the
rounded mean of the consecutive gaps of the ascending-sorted timestamps,
which telescopes to `round((last - first) / ((n - 1) · 86400000))`. -/
theorem C3_average_interval :
    (∀ (getTime : String → Nat) (data : List RawRelease),
      ((data.map (·.published_at)).filter (fun s => !s.isEmpty)).length < 2 →
        Service.getAverageReleaseInterval getTime data = 0) ∧
    (∀ d0 d1 : Nat, d0 ≤ d1 →
      Service.averageInterval [d0, d1] = Service.jsRound (d1 - d0) 86400000 ∧
      Service.averageInterval [d1, d0] = Service.jsRound (d1 - d0) 86400000) ∧
    (∀ times : List Nat, 2 ≤ times.length →
      Service.averageInterval times =
        Service.jsRound
          ((Service.sortAsc times).getLastD 0 - (Service.sortAsc times).headD 0)
          ((times.length - 1) * 86400000)) := by
  refine ⟨?_, ?_, ?_⟩
  · intro getTime data h
    have hlen :
        (Service.sortAsc (((data.map (·.published_at)).filter (fun s => !s.isEmpty)).map
          getTime)).length =
        ((data.map (·.published_at)).filter (fun s => !s.isEmpty)).length := by
      simp only [Service.sortAsc]
      rw [(List.perm_insertionSort _ _).length_eq, List.length_map]
    simp only [Service.getAverageReleaseInterval, Service.averageInterval]
    rw [hlen, if_pos h]
  · intro d0 d1 h
    have hs1 : Service.sortAsc [d0, d1] = [d0, d1] := by
      simp [Service.sortAsc, h]
    have hs2 : Service.sortAsc [d1, d0] = [d0, d1] := by
      rcases Nat.lt_or_ge d0 d1 with hlt | hge
      · have : ¬d1 ≤ d0 := by omega
        simp [Service.sortAsc, this]
      · have hq : d0 = d1 := by omega
        subst hq
        simp [Service.sortAsc]
    constructor
    · simp [Service.averageInterval, hs1, Service.gapSum]
    · simp [Service.averageInterval, hs2, Service.gapSum]
  · intro times h2
    haveI : IsTotal Nat (· ≤ ·) := ⟨Nat.le_total⟩
    haveI : IsTrans Nat (· ≤ ·) := ⟨fun _ _ _ => Nat.le_trans⟩
    have hsorted : (Service.sortAsc times).Pairwise (· ≤ ·) :=
      List.sorted_insertionSort (· ≤ ·) times
    have hlen : (Service.sortAsc times).length = times.length :=
      (List.perm_insertionSort _ _).length_eq
    simp only [Service.averageInterval]
    rw [hlen, if_neg (by omega), gapSum_sorted hsorted]

/-- Witness for C3: two timestamps exactly three days apart. -/
theorem C3_average_interval_witness :
    Service.averageInterval [0, 259200000] = Service.jsRound 259200000 86400000 ∧
    Service.jsRound 259200000 86400000 = 3 := by
  constructor
  · have h := (C3_average_interval.2.1 0 259200000 (by omega)).1
    simpa using h
  · decide

/-- C6 counterexample: for 2023-01-01 (day number 19358, a January date) the
persisted `published_month` cell is the one-character text "1", not the
zero-padded "01" the claim asserts. -/
theorem C6_counterexample :
    civilFromDays 19358 = (2023, 1, 1) ∧
    publishedMonthCell 19358 = "1" ∧ publishedMonthCell 19358 ≠ "01" := by
  refine ⟨by decide, by decide, by decide⟩

/-- C6 (amended): the persisted `published_month` is the 1-based month
number, always in the range 1..12, rendered without zero padding; applying
the dashboard's read-side `padStart(2, "0")` to the cell recovers exactly
the two-digit keys "01".."12". -/
theorem C6_amended_month_range (z : Nat) :
    1 ≤ publishedMonthField z ∧ publishedMonthField z ≤ 12 ∧
    pad2 (publishedMonthCell z) ∈
      ["01", "02", "03", "04", "05", "06", "07", "08", "09", "10", "11", "12"] := by
  have hm : 1 ≤ monthOf z ∧ monthOf z ≤ 12 := by
    dsimp only [monthOf, civilFromDays]
    split <;> omega
  have h1 : 1 ≤ publishedMonthField z := by unfold publishedMonthField; omega
  have h2 : publishedMonthField z ≤ 12 := by unfold publishedMonthField; omega
  refine ⟨h1, h2, ?_⟩
  unfold publishedMonthCell
  have h12 : publishedMonthField z = 1 ∨ publishedMonthField z = 2 ∨
      publishedMonthField z = 3 ∨ publishedMonthField z = 4 ∨
      publishedMonthField z = 5 ∨ publishedMonthField z = 6 ∨
      publishedMonthField z = 7 ∨ publishedMonthField z = 8 ∨
      publishedMonthField z = 9 ∨ publishedMonthField z = 10 ∨
      publishedMonthField z = 11 ∨ publishedMonthField z = 12 := by omega
  rcases h12 with h | h | h | h | h | h | h | h | h | h | h | h <;> rw [h] <;> decide

/-- C7 counterexample: 2023-01-01 (day number 19358) is classified with
`published_week = 1` by the code (`date-fns` `getWeek` with default
options), while its ISO-8601 week number is 52 (it falls in the last ISO
week of 2022). -/
theorem C7_counterexample :
    civilFromDays 19358 = (2023, 1, 1) ∧
    publishedWeekField 19358 = 1 ∧ isoWeekNumber 19358 = 52 ∧
    publishedWeekField 19358 ≠ isoWeekNumber 19358 := by
  refine ⟨by decide, by decide, by decide, by decide⟩

set_option maxRecDepth 100000 in
/-- C7 (amended): `published_week` is the week-of-year under the
weeks-start-Sunday convention whose week 1 is the week containing
January 1 (the `date-fns` `getWeek` default), not the ISO-8601 week
number; the equivalence with the independently phrased Sunday-week
formulation is verified for every day of 2018-01-01 .. 2025-12-31
(day numbers 17532..20453), which covers the repositories' release
history. -/
theorem C7_amended_week_convention (z : Nat) (hlo : 17532 ≤ z) (hhi : z < 20454) :
    publishedWeekField z = sundayWeekNumber z := by
  have c1 : ∀ w, w < 487 → publishedWeekField (17532 + w) = sundayWeekNumber (17532 + w) := by
    decide
  have c2 : ∀ w, w < 487 → publishedWeekField (18019 + w) = sundayWeekNumber (18019 + w) := by
    decide
  have c3 : ∀ w, w < 487 → publishedWeekField (18506 + w) = sundayWeekNumber (18506 + w) := by
    decide
  have c4 : ∀ w, w < 487 → publishedWeekField (18993 + w) = sundayWeekNumber (18993 + w) := by
    decide
  have c5 : ∀ w, w < 487 → publishedWeekField (19480 + w) = sundayWeekNumber (19480 + w) := by
    decide
  have c6 : ∀ w, w < 487 → publishedWeekField (19967 + w) = sundayWeekNumber (19967 + w) := by
    decide
  by_cases h1 : z < 18019
  · have := c1 (z - 17532) (by omega)
    rwa [show 17532 + (z - 17532) = z by omega] at this
  by_cases h2 : z < 18506
  · have := c2 (z - 18019) (by omega)
    rwa [show 18019 + (z - 18019) = z by omega] at this
  by_cases h3 : z < 18993
  · have := c3 (z - 18506) (by omega)
    rwa [show 18506 + (z - 18506) = z by omega] at this
  by_cases h4 : z < 19480
  · have := c4 (z - 18993) (by omega)
    rwa [show 18993 + (z - 18993) = z by omega] at this
  by_cases h5 : z < 19967
  · have := c5 (z - 19480) (by omega)
    rwa [show 19480 + (z - 19480) = z by omega] at this
  · have := c6 (z - 19967) (by omega)
    rwa [show 19967 + (z - 19967) = z by omega] at this

/-- Witness for the amended C7 at 2024-01-01 (day number 19723). -/
theorem C7_amended_week_convention_witness :
    publishedWeekField 19723 = sundayWeekNumber 19723 :=
  C7_amended_week_convention 19723 (by omega) (by omega)

/-- C8 counterexample: on a table holding a single Monday release, the
service's `getWeekdayStats` returns one entry, not one entry per weekday of
the fixed Monday..Friday sequence with zero fills. -/
theorem C8_counterexample :
    Service.getWeekdayStats [mondayRow] = [("Monday", 1)] ∧
    (Service.getWeekdayStats [mondayRow]).length ≠ 5 := by
  refine ⟨by decide, by decide⟩

theorem isEmpty_false_iff (s : String) : s.isEmpty = false ↔ s ≠ "" := by
  rw [← Bool.not_eq_true, String.isEmpty_iff]

theorem mem_weekdayKeys {day : String} {data : List RawRelease} :
    day ∈ Service.weekdayKeys data ↔
      (day ∈ data.map (fun d => d.published_weekday) ∧ day ≠ "") := by
  unfold Service.weekdayKeys
  rw [mem_firstDedup, List.mem_filter, Bool.not_eq_true', isEmpty_false_iff]

theorem weekdayCount_pos {day : String} (hne : day ≠ "") (data : List RawRelease) :
    0 < Service.weekdayCount data day ↔
      day ∈ data.map (fun d => d.published_weekday) := by
  unfold Service.weekdayCount
  rw [List.countP_pos_iff]
  constructor
  · rintro ⟨d, hd, hp⟩
    simp only [Bool.and_eq_true, beq_iff_eq] at hp
    exact List.mem_map.mpr ⟨d, hd, hp.2⟩
  · intro hmem
    rcases List.mem_map.mp hmem with ⟨d, hd, hdy⟩
    refine ⟨d, hd, ?_⟩
    simp [hdy, (isEmpty_false_iff day).mpr hne]

/-- C8 (amended): `getWeekdayStats` orders its entries by the fixed weekday
sequence, but only weekdays that actually occur are present — missing days
are absent rather than zero-filled — in the service (and client) variants;
only the `part_000` card variant zero-fills, producing one entry per
Monday..Friday whose count is the number of rows of that weekday. -/
theorem C8_amended_weekday_stats (data : List RawRelease)
    (h : ∀ d ∈ data, d.published_weekday ∈ WEEKDAYS) :
    Service.getWeekdayStats data =
      (WEEKDAYS.filter (fun day => decide (0 < Service.weekdayCount data day))).map
        (fun day => (day, Service.weekdayCount data day)) ∧
    Cards.getWeekdayStats data =
      WEEKDAYS.map (fun day => (day, data.countP (fun d => d.published_weekday == day))) := by
  constructor
  · -- the service variant: present weekdays only, in fixed-sequence order
    have hkeysnd : (Service.weekdayKeys data).Nodup := nodup_firstDedup _
    have hsub : ∀ k ∈ Service.weekdayKeys data, k ∈ WEEKDAYS := by
      intro k hk
      rcases mem_weekdayKeys.mp hk with ⟨hkmem, _⟩
      rcases List.mem_map.mp hkmem with ⟨d, hd, rfl⟩
      exact h d hd
    have hWnd : WEEKDAYS.Nodup := by decide
    have hne : ∀ day ∈ WEEKDAYS, day ≠ "" := by decide
    have hfe : WEEKDAYS.filter (fun day => decide (0 < Service.weekdayCount data day)) =
        WEEKDAYS.filter (fun day => decide (day ∈ Service.weekdayKeys data)) := by
      apply List.filter_congr
      intro day hday
      rw [decide_eq_decide]
      rw [weekdayCount_pos (hne day hday) data, mem_weekdayKeys]
      constructor
      · intro hm; exact ⟨hm, hne day hday⟩
      · rintro ⟨hm, _⟩; exact hm
    have hpermkeys : (Service.weekdayKeys data).Perm
        (WEEKDAYS.filter (fun day => decide (day ∈ Service.weekdayKeys data))) := by
      rw [List.perm_ext_iff_of_nodup hkeysnd (hWnd.filter _)]
      intro a
      rw [List.mem_filter]
      constructor
      · intro ha; exact ⟨hsub a ha, by simpa using ha⟩
      · rintro ⟨_, ha⟩; simpa using ha
    haveI instTot : IsTotal (String × Nat)
        (fun a b => jsIndexOf WEEKDAYS a.1 ≤ jsIndexOf WEEKDAYS b.1) :=
      ⟨fun a b => Int.le_total _ _⟩
    haveI instTrans : IsTrans (String × Nat)
        (fun a b => jsIndexOf WEEKDAYS a.1 ≤ jsIndexOf WEEKDAYS b.1) :=
      ⟨fun _ _ _ hab hbc => le_trans hab hbc⟩
    have hsorted : (Service.getWeekdayStats data).Pairwise
        (fun a b => jsIndexOf WEEKDAYS a.1 ≤ jsIndexOf WEEKDAYS b.1) :=
      List.sorted_insertionSort _ _
    have hpermsort : (Service.getWeekdayStats data).Perm
        ((Service.weekdayKeys data).map (fun day => (day, Service.weekdayCount data day))) :=
      List.perm_insertionSort _ _
    have hperm : (Service.getWeekdayStats data).Perm
        ((WEEKDAYS.filter (fun day => decide (day ∈ Service.weekdayKeys data))).map
          (fun day => (day, Service.weekdayCount data day))) :=
      hpermsort.trans (hpermkeys.map _)
    have hWpair : WEEKDAYS.Pairwise
        (fun a b => jsIndexOf WEEKDAYS a < jsIndexOf WEEKDAYS b) := by decide
    have hRHSpair : ((WEEKDAYS.filter (fun day => decide (day ∈ Service.weekdayKeys data))).map
        (fun day => (day, Service.weekdayCount data day))).Pairwise
        (fun a b => jsIndexOf WEEKDAYS a.1 ≤ jsIndexOf WEEKDAYS b.1) := by
      rw [List.pairwise_map]
      refine ((hWpair.sublist (List.filter_sublist _)).imp ?_)
      intro a b hab
      exact le_of_lt hab
    have hanti : ∀ a ∈ Service.getWeekdayStats data, ∀ b ∈ Service.getWeekdayStats data,
        jsIndexOf WEEKDAYS a.1 ≤ jsIndexOf WEEKDAYS b.1 →
        jsIndexOf WEEKDAYS b.1 ≤ jsIndexOf WEEKDAYS a.1 → a = b := by
      intro a ha b hb hab hba
      have ha' : a ∈ (Service.weekdayKeys data).map
          (fun day => (day, Service.weekdayCount data day)) := hpermsort.subset ha
      have hb' : b ∈ (Service.weekdayKeys data).map
          (fun day => (day, Service.weekdayCount data day)) := hpermsort.subset hb
      rcases List.mem_map.mp ha' with ⟨k1, hk1, rfl⟩
      rcases List.mem_map.mp hb' with ⟨k2, hk2, rfl⟩
      have hidx : jsIndexOf WEEKDAYS k1 = jsIndexOf WEEKDAYS k2 := le_antisymm hab hba
      have hk1W : k1 ∈ WEEKDAYS := hsub k1 hk1
      have hk2W : k2 ∈ WEEKDAYS := hsub k2 hk2
      have : k1 = k2 := by
        unfold jsIndexOf at hidx
        rw [if_pos hk1W, if_pos hk2W] at hidx
        exact (List.indexOf_inj hk1W hk2W).mp (by exact_mod_cast hidx)
      rw [this]
    rw [hfe]
    exact eq_of_perm_of_pairwise _ hperm hanti hsorted hRHSpair
  · -- the card variant: zero-filled Monday..Friday
    show WEEKDAYS.map (fun day => (day, Service.weekdayCount (Cards.excludeWeekend data) day)) = _
    apply List.map_congr_left
    intro day hday
    refine Prod.ext rfl ?_
    show Service.weekdayCount (Cards.excludeWeekend data) day =
      data.countP (fun d => d.published_weekday == day)
    unfold Service.weekdayCount Cards.excludeWeekend
    rw [List.countP_filter]
    apply countP_congr_mem
    intro d _
    by_cases hd : d.published_weekday = day
    · rw [hd]
      have : day ∈ WEEKDAYS := hday
      fin_cases this <;> decide
    · have hbeq : (d.published_weekday == day) = false := by
        simp [hd]
      simp [hbeq]

/-- Witness for the amended C8 at a one-row table. -/
theorem C8_amended_weekday_stats_witness :
    Service.getWeekdayStats [mondayRow] =
      (WEEKDAYS.filter (fun day => decide (0 < Service.weekdayCount [mondayRow] day))).map
        (fun day => (day, Service.weekdayCount [mondayRow] day)) :=
  (C8_amended_weekday_stats [mondayRow] (by decide)).1

/-- The `saveStatsCSV` comparator is the lexicographic order on the
`(repo, type, period)` key. -/
theorem statLe_iff (a b : Analyze.StatRecord) :
    Analyze.statLe a b ↔
      toLex (a.repo, toLex (a.type, a.period)) ≤ toLex (b.repo, toLex (b.type, b.period)) := by
  rw [Prod.Lex.le_iff, Prod.Lex.le_iff]
  rfl

/-- C9: sorting the flattened `{type, period, repo, count}` rows by
`(repo, type, period)` yields the same list for any two arrival orders of
the same rows (their keys being distinct, as map-key flattening
guarantees), and the result is sorted by the comparator — so the serialized
stats table is deterministic regardless of production order. -/
theorem C9_stats_sort_deterministic (l₁ l₂ : List Analyze.StatRecord)
    (hperm : l₁.Perm l₂) (hkeys : (l₁.map Analyze.statKey).Nodup) :
    Analyze.sortStats l₁ = Analyze.sortStats l₂ ∧
    (Analyze.sortStats l₁).Pairwise Analyze.statLe := by
  haveI : IsTotal Analyze.StatRecord Analyze.statLe := ⟨fun a b => by
    rw [statLe_iff, statLe_iff]
    exact le_total _ _⟩
  haveI : IsTrans Analyze.StatRecord Analyze.statLe := ⟨fun a b c hab hbc => by
    rw [statLe_iff] at hab hbc ⊢
    exact le_trans hab hbc⟩
  have hs1 : (Analyze.sortStats l₁).Pairwise Analyze.statLe :=
    List.sorted_insertionSort _ _
  have hs2 : (Analyze.sortStats l₂).Pairwise Analyze.statLe :=
    List.sorted_insertionSort _ _
  have hp : (Analyze.sortStats l₁).Perm (Analyze.sortStats l₂) :=
    (List.perm_insertionSort _ _).trans (hperm.trans (List.perm_insertionSort _ _).symm)
  have hanti : ∀ a ∈ Analyze.sortStats l₁, ∀ b ∈ Analyze.sortStats l₁,
      Analyze.statLe a b → Analyze.statLe b a → a = b := by
    intro a ha b hb hab hba
    have ha1 : a ∈ l₁ := (List.perm_insertionSort _ _).subset ha
    have hb1 : b ∈ l₁ := (List.perm_insertionSort _ _).subset hb
    rw [statLe_iff] at hab hba
    have hlex := le_antisymm hab hba
    have hcomp : (a.repo, toLex (a.type, a.period)) = (b.repo, toLex (b.type, b.period)) :=
      toLex.injective hlex
    have hkey : Analyze.statKey a = Analyze.statKey b := by
      have h1 : a.repo = b.repo := congrArg Prod.fst hcomp
      have h2 : toLex (a.type, a.period) = toLex (b.type, b.period) :=
        congrArg Prod.snd hcomp
      have h2' : (a.type, a.period) = (b.type, b.period) := toLex.injective h2
      unfold Analyze.statKey
      rw [h1]
      exact congrArg (fun p : String × String => (b.repo, p.1, p.2)) h2'
    exact List.inj_on_of_nodup_map hkeys ha1 hb1 hkey
  exact ⟨eq_of_perm_of_pairwise _ hp hanti hs1 hs2, hs1⟩

/-- Witness for C9: two concrete rows serialized from either arrival order. -/
theorem C9_stats_sort_deterministic_witness :
    Analyze.sortStats [statRow1, statRow2] = Analyze.sortStats [statRow2, statRow1] :=
  (C9_stats_sort_deterministic [statRow1, statRow2] [statRow2, statRow1]
    (List.Perm.swap statRow2 statRow1 []) (by decide)).1

end ReleaseTracker
